import Mathlib

/-!
Verification of the Cubist estimator glue layer (`cubist/cubist.py`).

The Python layer is embedded shallowly: text is `List Char`, Python's
`str.replace`, `str.index` and slicing become Lean functions on character
lists, the estimator's mutable attributes become an explicit record that
is threaded through `fit` and `predict`, and exceptions become explicit
error values.  Collaborators that live outside this repository (the C
engine, `zlib`, `parse_model`, `get_variable_usage`, the data/names
encoders) are passed in as explicit function parameters, so the theorems
quantify over their behaviour.
-/

namespace Cubist

/-- Text is modelled as a list of characters. -/
abbrev Str := List Char

/-! ## Python string primitives -/

/-- Fuel-indexed scanner for Python's `str.replace`: scans left to right,
replacing each non-overlapping occurrence of `pat` by `rep`.  The fuel is
always instantiated with the length of the scanned text, which suffices. -/
def replaceAllF (pat rep : Str) : Nat → Str → Str
  | _, [] => []
  | 0, s => s
  | fuel + 1, c :: rest =>
    if pat ≠ [] ∧ pat <+: (c :: rest) then
      rep ++ replaceAllF pat rep fuel (rest.drop (pat.length - 1))
    else
      c :: replaceAllF pat rep fuel rest

/-- Python's `str.replace pat rep` (for non-empty `pat`; the code under
verification only ever replaces non-empty literals). -/
def replaceAll (pat rep s : Str) : Str := replaceAllF pat rep s.length s

/-- Python's `str.index`, returning the first position at which `pat`
occurs in `s`, or `none` (Python raises `ValueError`) when it does not. -/
def subIndex (pat : Str) : Str → Option Nat
  | [] => if pat = [] then some 0 else none
  | c :: rest =>
    if pat <+: (c :: rest) then some 0
    else (subIndex pat rest).map (· + 1)

/-- Decimal rendering of an integer, as Python's `str`/f-string formatting
produces for `int` values. -/
def intToStr (i : Int) : Str := (toString i).data

/-- Python's `int(q)` on a float: truncation toward zero. -/
def pyIntTrunc (q : ℚ) : Int := q.num.tdiv q.den

/-! ## Fixed tokens of the model-text surgery -/

/-- The engine-reserved weight-column identifier. -/
def sampleTok : Str := ("__Sample").data

/-- The display label substituted for the reserved identifier. -/
def displayTok : Str := ("sample").data

/-- The newline-prefixed occurrence of the reserved identifier that `fit`
looks for in the names string. -/
def nlSampleTok : Str := ("\n__Sample").data

/-- The marker token delimiting the `entries` section of the model header. -/
def entriesTok : Str := ("entries").data

/-- The engine error marker searched for in the diagnostics text. -/
def errTok : Str := ("Error").data

/-- The canonical disabled-state header substring `insts="0"`. -/
def disabledStr : Str := ("insts=\"0\"").data

/-- The enabled-state header substring
`insts="1" nn="K" maxd="M"` for neighbor count `K` and distance `M`. -/
def enabledStr (nn maxd : Int) : Str :=
  ("insts=\"1\" nn=\"").data ++ intToStr nn ++ ("\" maxd=\"").data ++
    intToStr maxd ++ ("\"").data

/-! ## Model text toggling (predict lines 302-307, fit lines 254-257) -/

/-- The correction toggle of `predict`: when the configured neighbor count
is positive, rewrite the disabled header into the enabled header
parameterized by the neighbor count and the stored `maxd`; otherwise leave
the text unchanged.  This is `str.replace`, exactly as the source does it. -/
def toggleModel (modelText : Str) (neighbors maxd : Int) : Str :=
  if 0 < neighbors then replaceAll disabledStr (enabledStr neighbors maxd) modelText
  else modelText

/-- The normalization at the end of `fit`: the engine-produced header
`insts="1" nn="1" maxd="M"` is replaced by the disabled form `insts="0"`. -/
def disableModel (m : Str) (maxd : Int) : Str :=
  replaceAll (enabledStr 1 maxd) disabledStr m

/-! ## Reserved-name repair (fit lines 231-237) -/

/-- The substitution applied to the diagnostics text when the names string
contains the reserved weight-column token. -/
def repairOutput (o : Str) : Str := replaceAll sampleTok displayTok o

/-- The Python `ValueError` message raised by `str.index` on a miss. -/
def substrNotFound : Str := ("substring not found").data

/-- Errors with which a training or prediction call can fail. -/
inductive FitError where
  | valueError (msg : Str)
  | engineError (output : Str)
  | parseError
  deriving DecidableEq

/-- The model-text half of the reserved-name repair: substitute the
reserved token, then splice out everything between the first occurrence of
the display label and the first occurrence of the `entries` marker.  A
missing occurrence makes Python's `str.index` raise `ValueError`. -/
def repairModel (m : Str) : Except FitError Str :=
  let m1 := replaceAll sampleTok displayTok m
  match subIndex displayTok m1, subIndex entriesTok m1 with
  | some i, some j => .ok (m1.take i ++ m1.drop j)
  | _, _ => .error (.valueError substrNotFound)

/-! ## Data model -/

/-- A column-major table: each column is a name paired with its cells,
a missing value (`NaN`) being `none`.  This is the shape of the
coefficient table and of the prediction input frame that the claims
inspect. -/
abbrev Table := List (Str × List (Option ℚ))

/-- Modelled from the spec: the result of `parse_model` (the
`ModelTextParser` component, whose source is not part of this repository):
the `variable` column of the rules table (absent when the engine built no
rules), the coefficient table with one optional slot per variable per
rule, and the extracted `maxd` value. -/
structure ParseResult where
  rules : Option (List Str)
  coeff : Table
  maxd : ℚ
  deriving DecidableEq

/-- Modelled from the spec: the general-purpose lossless stream compressor
(`zlib`, not part of this repository) used for the persisted fitted state:
a compress/decompress pair whose composition is the identity. -/
structure Codec where
  comp : Str → Str
  decomp : Str → Str
  lossless : ∀ s, decomp (comp s) = s

/-- Per-variable usage percentages parsed from the diagnostics text. -/
abbrev UsageTable := List (Str × ℚ × ℚ)

/-- The summary `variables_` stored on the estimator. -/
structure VarsSummary where
  all : List Str
  used : Finset Str
  deriving DecidableEq

/-- The mutable attributes of the estimator, each `none` until assigned.
Mirrors the attributes `fit` writes, in the roles they have in the
source. -/
structure CubistState where
  random_state_ : Option Unit := none
  is_sample_weighted_ : Option Bool := none
  n_features_in_ : Option Nat := none
  names_string_ : Option Str := none
  data_string_ : Option Str := none
  model_ : Option Str := none
  rules_ : Option (Option (List Str)) := none
  coeff_ : Option Table := none
  maxd_ : Option ℚ := none
  feature_importances_ : Option UsageTable := none
  variables_ : Option VarsSummary := none
  is_fitted_ : Option Bool := none
  deriving DecidableEq

/-- A hyperparameter value that may or may not be a Python `int`
(`isinstance(·, int)` distinguishes `int` from `float`). -/
inductive PyNum where
  | int (n : Int)
  | float (q : ℚ)
  deriving DecidableEq

/-- The hyperparameters validated at the top of `fit`. -/
structure FitParams where
  n_rules : Int
  n_committees : Int
  neighbors : PyNum
  extrapolation : ℚ
  sample : ℚ
  deriving DecidableEq

/-! ## fit (lines 158-279) -/

/-- Hyperparameter validation, lines 158-174: each check in source order,
returning the Python `ValueError` message of the first failing check. -/
def validateParams (p : FitParams) : Option Str :=
  if p.n_rules < 1 ∨ 1000000 < p.n_rules then
    some (("number of rules must be between 1 and 1000000").data)
  else if p.n_committees < 1 ∨ 100 < p.n_committees then
    some (("number of committees must be between 1 and 100").data)
  else
    match p.neighbors with
    | .float _ => some (("Only an integer value for neighbors is allowed").data)
    | .int n =>
      if n < 1 ∨ 9 < n then
        some (("'neighbors' must be between and including 1 and 9").data)
      else if p.extrapolation < 0 ∨ 1 < p.extrapolation then
        some (("extrapolation percentage must be between 0.0 and 1.0").data)
      else if p.sample < 0 ∨ 1 < p.sample then
        some (("sampling percentage must be between 0.0 and 1.0").data)
      else none

/-- Lines 262-267: names of the coefficient columns with no missing value
in any rule, the first three entries of that filtered list skipped. -/
def notNaCols (coeff : Table) : List Str :=
  ((coeff.filter (fun col => col.2.all Option.isSome)).map Prod.fst).drop 3

/-- Lines 271-274: the `used` entry of the variables summary — the union
of the rules' `variable` column and `notNaCols`, as an (unordered) set. -/
def usedVariables (ruleVars : List Str) (coeff : Table) : Finset Str :=
  ruleVars.toFinset ∪ (notNaCols coeff).toFinset

/-- Lines 239-276 of `fit`, from the engine-error check onward: raise on
the engine error marker, compress the persisted texts, parse the model
(`parse` is the external `parse_model`), normalize the header to the
disabled form, store the usage table and the variables summary. -/
def fitAfterRepair (codec : Codec) (parse : Str → Except Unit ParseResult)
    (usage : Str → UsageTable) (xCols : List Str) (namesStr dataStr : Str)
    (model2 output1 : Str) (st : CubistState) : CubistState × Option FitError :=
  if errTok <:+: output1 then (st, some (.engineError output1))
  else
    let st := { st with names_string_ := some (codec.comp namesStr),
                        data_string_ := some (codec.comp dataStr) }
    match parse model2 with
    | .error _ => (st, some .parseError)
    | .ok pr =>
      let st := { st with rules_ := some pr.rules, coeff_ := some pr.coeff,
                          maxd_ := some pr.maxd }
      let st := { st with model_ := some (disableModel model2 (pyIntTrunc pr.maxd)) }
      let st := { st with feature_importances_ := some (usage output1) }
      let st :=
        match pr.rules with
        | some rv => { st with variables_ := some ⟨xCols, usedVariables rv pr.coeff⟩ }
        | none => st
      ({ st with is_fitted_ := some true }, none)

/-- The method `Cubist.fit`, lines 158-279, as a transformer of the estimator state.
Attribute assignments happen in source order, so a failure part-way leaves
exactly the attributes assigned so far (Python exception semantics).
`engine` is the external C engine, consumed as text-in/text-out. -/
def fit (codec : Codec) (parse : Str → Except Unit ParseResult)
    (usage : Str → UsageTable) (p : FitParams) (sw : Bool) (xCols : List Str)
    (namesStr dataStr : Str) (engine : Str → Str → Str × Str)
    (st0 : CubistState) : CubistState × Option FitError :=
  match validateParams p with
  | some msg => (st0, some (.valueError msg))
  | none =>
    let st := { st0 with random_state_ := some () }
    let st := { st with is_sample_weighted_ := some sw }
    let st := { st with n_features_in_ := some xCols.length }
    let st := { st with names_string_ := some namesStr }
    let st := { st with data_string_ := some dataStr }
    let mo := engine namesStr dataStr
    let st := { st with model_ := some mo.1 }
    if nlSampleTok <:+: namesStr then
      let o1 := repairOutput mo.2
      let st := { st with model_ := some (replaceAll sampleTok displayTok mo.1) }
      match repairModel mo.1 with
      | .error e => (st, some e)
      | .ok m2 =>
        let st := { st with model_ := some m2 }
        fitAfterRepair codec parse usage xCols namesStr dataStr m2 o1 st
    else
      fitAfterRepair codec parse usage xCols namesStr dataStr mo.1 mo.2 st

/-! ## predict (lines 281-328) -/

/-- The name of the dummy weight column appended at prediction time. -/
def cwpName : Str := ("case_weight_pred").data

/-- Pandas column assignment `X[name] = scalar`: overwrite the column if
the name exists, else append it, broadcast over all rows. -/
def setCol (X : Table) (name : Str) (vals : List (Option ℚ)) : Table :=
  if X.any (fun col => col.1 = name) then
    X.map (fun col => if col.1 = name then (name, vals) else col)
  else X ++ [(name, vals)]

/-- Number of rows of a table. -/
def nRows (X : Table) : Nat := (X.head?.map (fun col => col.2.length)).getD 0

/-- The four text arguments `predict` hands to the engine's prediction
entry point. -/
structure EngineArgs where
  newData : Str
  namesArg : Str
  dataArg : Str
  modelArg : Str
  deriving DecidableEq

/-- The engine-facing part of `Cubist.predict`, lines 295-323: check the
fitted attributes, derive the toggled model text, append the dummy weight
column for weighted models, encode the prediction frame (`mkData` is the
external `make_data_string`), and decompress the persisted texts.  Returns
the (unchanged) state and the engine call arguments, `none` when
`check_is_fitted` fails. -/
def predict (codec : Codec) (mkData : Table → Str) (st : CubistState)
    (neighbors : Int) (X : Table) : CubistState × Option EngineArgs :=
  (st,
    match st.model_, st.maxd_, st.is_sample_weighted_,
        st.names_string_, st.data_string_ with
    | some m, some maxd, some sw, some ns, some ds =>
      let model := toggleModel m neighbors (pyIntTrunc maxd)
      let X2 := if sw then setCol X cwpName (List.replicate (nRows X) none) else X
      some ⟨mkData X2, codec.decomp ns, codec.decomp ds, model⟩
    | _, _, _, _, _ => none)

/-! ## Lemmas about the replacement scanner -/

/-- A text in which the pattern does not occur is left unchanged by the
replacement scan (Python's `str.replace` is a no-op on a miss). -/
lemma replaceAllF_eq_of_no_occurrence (pat rep : Str) :
    ∀ fuel s, ¬ pat <:+: s → replaceAllF pat rep fuel s = s := by
  intro fuel
  induction fuel with
  | zero => intro s _; cases s <;> simp [replaceAllF]
  | succ f ih =>
    intro s h
    cases s with
    | nil => simp [replaceAllF]
    | cons c rest =>
      have hnp : ¬ (pat ≠ [] ∧ pat <+: (c :: rest)) := by
        rintro ⟨-, hp⟩; exact h hp.isInfix
      have hrest : ¬ pat <:+: rest := fun hi => h (List.infix_cons hi)
      simp only [replaceAllF, if_neg hnp]
      rw [ih rest hrest]

/-- The function `replaceAll` is the identity on texts avoiding the pattern. -/
lemma replaceAll_eq_of_no_occurrence (pat rep s : Str) (h : ¬ pat <:+: s) :
    replaceAll pat rep s = s :=
  replaceAllF_eq_of_no_occurrence pat rep s.length s h

/-- When the pattern does occur, the replacement text occurs in the
result of the scan. -/
lemma rep_infix_replaceAllF (pat rep : Str) (hpat : pat ≠ []) :
    ∀ fuel s, s.length ≤ fuel → pat <:+: s → rep <:+: replaceAllF pat rep fuel s := by
  intro fuel
  induction fuel with
  | zero =>
    intro s hlen h
    have : s = [] := List.length_eq_zero.mp (Nat.le_zero.mp hlen)
    subst this
    exact absurd (List.infix_nil.mp h) hpat
  | succ f ih =>
    intro s hlen h
    cases s with
    | nil => exact absurd (List.infix_nil.mp h) hpat
    | cons c rest =>
      by_cases hc : pat ≠ [] ∧ pat <+: (c :: rest)
      · simp only [replaceAllF, if_pos hc]
        exact ⟨[], replaceAllF pat rep f (rest.drop (pat.length - 1)), by simp⟩
      · simp only [replaceAllF, if_neg hc]
        have hnp : ¬ pat <+: (c :: rest) := fun hp => hc ⟨hpat, hp⟩
        rcases List.infix_cons_iff.mp h with hp | hi
        · exact absurd hp hnp
        · have := ih rest (Nat.le_of_succ_le_succ hlen) hi
          exact List.infix_cons this

/-- A prefix whose characters all avoid the pattern's characters is
preserved as a prefix by the replacement scan. -/
lemma prefix_replaceAllF_of_disjoint (pat rep : Str) :
    ∀ fuel q s, (∀ c ∈ q, c ∉ pat) → q <+: s → q <+: replaceAllF pat rep fuel s := by
  intro fuel
  induction fuel with
  | zero => intro q s _ h; cases s <;> simpa [replaceAllF] using h
  | succ f ih =>
    intro q s hq h
    cases s with
    | nil => simpa [replaceAllF] using h
    | cons c rest =>
      cases q with
      | nil => exact List.nil_prefix
      | cons d q' =>
        obtain ⟨hd, hq'⟩ := List.cons_prefix_cons.mp h
        subst hd
        by_cases hc : pat ≠ [] ∧ pat <+: (d :: rest)
        · exfalso
          obtain ⟨hpne, hpp⟩ := hc
          cases pat with
          | nil => exact hpne rfl
          | cons p0 pt =>
            obtain ⟨hp0, -⟩ := List.cons_prefix_cons.mp hpp
            exact hq d (List.mem_cons_self d q')
              (by rw [← hp0]; exact List.mem_cons_self p0 pt)
        · simp only [replaceAllF, if_neg hc]
          exact List.cons_prefix_cons.mpr
            ⟨rfl, ih q' rest (fun c hcmem => hq c (List.mem_cons_of_mem d hcmem)) hq'⟩

/-- An occurrence of `q` in `s` whose characters avoid the characters of
a prefix `pat` of `s` must lie entirely beyond that prefix. -/
lemma infix_drop_of_disjoint {pat q s : Str} (hp : pat <+: s)
    (hq : ∀ c ∈ q, c ∉ pat) (h : q <:+: s) : q <:+: s.drop pat.length := by
  obtain ⟨l, r, hlr⟩ := h
  by_cases hl : pat.length ≤ l.length
  · refine ⟨l.drop pat.length, r, ?_⟩
    conv_rhs => rw [← hlr, List.append_assoc, List.drop_append_of_le_length hl]
    rw [List.append_assoc]
  · push_neg at hl
    cases q with
    | nil => exact ⟨[], s.drop pat.length, by simp⟩
    | cons d q' =>
      exfalso
      obtain ⟨u, hu⟩ := hp
      have hA : s.drop l.length = (d :: q') ++ r := by
        rw [← hlr, List.append_assoc, List.drop_left]
      have hB : s.drop l.length = pat.drop l.length ++ u := by
        rw [← hu, List.drop_append_of_le_length (Nat.le_of_lt hl)]
      rw [List.drop_eq_getElem_cons hl] at hB
      rw [hA] at hB
      simp only [List.cons_append] at hB
      have hd : d = pat[l.length] := (List.cons_eq_cons.mp hB).1
      exact hq d (List.mem_cons_self d q') (hd ▸ List.getElem_mem hl)

/-- An occurrence of a text whose characters avoid the pattern's
characters survives the replacement scan. -/
lemma infix_replaceAllF_of_disjoint (pat rep q : Str) (hq : ∀ c ∈ q, c ∉ pat) :
    ∀ fuel s, s.length ≤ fuel → q <:+: s → q <:+: replaceAllF pat rep fuel s := by
  intro fuel
  induction fuel with
  | zero =>
    intro s hlen h
    have : s = [] := List.length_eq_zero.mp (Nat.le_zero.mp hlen)
    subst this; simpa [replaceAllF] using h
  | succ f ih =>
    intro s hlen h
    cases s with
    | nil => simpa [replaceAllF] using h
    | cons c rest =>
      by_cases hc : pat ≠ [] ∧ pat <+: (c :: rest)
      · obtain ⟨hpne, hpp⟩ := hc
        simp only [replaceAllF, if_pos (And.intro hpne hpp)]
        have hdrop : q <:+: (c :: rest).drop pat.length :=
          infix_drop_of_disjoint hpp hq h
        obtain ⟨m, hm⟩ := Nat.exists_eq_succ_of_ne_zero
          (fun h0 => hpne (List.length_eq_zero.mp h0))
        have heq : (c :: rest).drop pat.length = rest.drop (pat.length - 1) := by
          rw [hm]; simp
        rw [heq] at hdrop
        have hlen2 : (rest.drop (pat.length - 1)).length ≤ f :=
          Nat.le_trans (by simp)
            (Nat.le_of_succ_le_succ hlen)
        exact (ih _ hlen2 hdrop).trans
          (List.suffix_append rep _).isInfix
      · simp only [replaceAllF, if_neg hc]
        rcases List.infix_cons_iff.mp h with hpre | hi
        · have := prefix_replaceAllF_of_disjoint pat rep (f + 1) q (c :: rest) hq hpre
          rw [show replaceAllF pat rep (f + 1) (c :: rest)
              = c :: replaceAllF pat rep f rest by
            simp only [replaceAllF, if_neg hc]] at this
          exact this.isInfix
        · exact List.infix_cons (ih rest (Nat.le_of_succ_le_succ hlen) hi)

/-- A non-empty suffix of the pattern that is a prefix of the scan's
output is already a prefix of the input, provided no non-empty suffix of
the pattern is a prefix of the replacement and the replacement does not
occur inside the pattern. -/
lemma drop_prefix_replaceAllF (pat rep : Str)
    (h3 : ∀ k, k < pat.length → ¬ pat.drop k <+: rep)
    (h4 : ¬ rep <:+: pat) :
    ∀ fuel s k, k < pat.length → pat.drop k <+: replaceAllF pat rep fuel s →
      pat.drop k <+: s := by
  intro fuel
  induction fuel with
  | zero => intro s k _ h; cases s <;> simpa [replaceAllF] using h
  | succ f ih =>
    intro s k hk h
    cases s with
    | nil =>
      simp only [replaceAllF] at h
      exact h
    | cons c rest =>
      by_cases hc : pat ≠ [] ∧ pat <+: (c :: rest)
      · exfalso
        simp only [replaceAllF, if_pos hc] at h
        set T := replaceAllF pat rep f (rest.drop (pat.length - 1)) with hT
        by_cases hlen : (pat.drop k).length ≤ rep.length
        · exact h3 k hk
            (List.prefix_of_prefix_length_le h (List.prefix_append rep T) hlen)
        · push_neg at hlen
          have hrp : rep <+: pat.drop k :=
            List.prefix_of_prefix_length_le (List.prefix_append rep T) h
              (Nat.le_of_lt hlen)
          exact h4 (hrp.isInfix.trans (List.drop_suffix k pat).isInfix)
      · simp only [replaceAllF, if_neg hc] at h
        rw [List.drop_eq_getElem_cons hk] at h ⊢
        obtain ⟨hd, htail⟩ := List.cons_prefix_cons.mp h
        by_cases hk1 : k + 1 < pat.length
        · exact List.cons_prefix_cons.mpr ⟨hd, ih rest (k + 1) hk1 htail⟩
        · push_neg at hk1
          have : pat.drop (k + 1) = [] := List.drop_eq_nil_of_le hk1
          rw [this]
          exact List.cons_prefix_cons.mpr ⟨hd, List.nil_prefix⟩

/-- Splitting a cons-prefix of a cons: head agreement plus tail-prefix. -/
lemma cons_prefix_parts {p : Str} {c : Char} {T : Str} (hp : 0 < p.length)
    (h : p <+: c :: T) : p[0] = c ∧ p.drop 1 <+: T := by
  cases p with
  | nil => simp at hp
  | cons p0 pt =>
    obtain ⟨h1, h2⟩ := List.cons_prefix_cons.mp h
    exact ⟨by simpa using h1, by simpa using h2⟩

/-- Decomposition of an occurrence in an appended text: it lies in the
right part, or it starts inside a non-empty suffix of the left part. -/
lemma infix_append_cases {q A B : Str} (h : q <:+: A ++ B) :
    q <:+: B ∨ ∃ a, a <:+ A ∧ a ≠ [] ∧ q <+: a ++ B := by
  induction A with
  | nil => exact Or.inl (by simpa using h)
  | cons c A' ih =>
    rw [List.cons_append] at h
    rcases List.infix_cons_iff.mp h with hp | hi
    · exact Or.inr ⟨c :: A', List.suffix_refl _, by simp, by rwa [List.cons_append]⟩
    · rcases ih hi with h1 | ⟨a, ha, hne, hp⟩
      · exact Or.inl h1
      · exact Or.inr ⟨a, ha.trans (List.suffix_cons c A'), hne, hp⟩

/-- Under boundary conditions relating the pattern and the replacement
(the pattern does not occur in the replacement, no non-empty prefix of the
pattern is a suffix of the replacement, no non-empty suffix of the pattern
is a prefix of the replacement, and the replacement does not occur in the
pattern), the pattern does not occur in the output of the scan. -/
lemma not_pat_infix_replaceAllF (pat rep : Str) (hpat : pat ≠ [])
    (h1 : ¬ pat <:+: rep)
    (h2 : ∀ k, k < pat.length → ¬ pat.take (k + 1) <:+ rep)
    (h3 : ∀ k, k < pat.length → ¬ pat.drop k <+: rep)
    (h4 : ¬ rep <:+: pat) :
    ∀ fuel s, s.length ≤ fuel → ¬ pat <:+: replaceAllF pat rep fuel s := by
  intro fuel
  induction fuel with
  | zero =>
    intro s hlen h
    have : s = [] := List.length_eq_zero.mp (Nat.le_zero.mp hlen)
    subst this
    exact hpat (List.infix_nil.mp (by simpa [replaceAllF] using h))
  | succ f ih =>
    intro s hlen h
    cases s with
    | nil => exact hpat (List.infix_nil.mp (by simpa [replaceAllF] using h))
    | cons c rest =>
      by_cases hc : pat ≠ [] ∧ pat <+: (c :: rest)
      · simp only [replaceAllF, if_pos hc] at h
        set T := replaceAllF pat rep f (rest.drop (pat.length - 1)) with hT
        rcases infix_append_cases h with hinT | ⟨a, haS, hane, hp⟩
        · have hlen2 : (rest.drop (pat.length - 1)).length ≤ f :=
            Nat.le_trans (by simp)
              (Nat.le_of_succ_le_succ hlen)
          exact ih _ hlen2 hinT
        · by_cases halen : pat.length ≤ a.length
          · have hpa : pat <+: a :=
              List.prefix_of_prefix_length_le hp (List.prefix_append a T) halen
            exact h1 (hpa.isInfix.trans haS.isInfix)
          · push_neg at halen
            have hap : a <+: pat :=
              List.prefix_of_prefix_length_le (List.prefix_append a T) hp
                (Nat.le_of_lt halen)
            have hlen0 : 0 < a.length := List.length_pos.mpr hane
            have hkey : pat.take ((a.length - 1) + 1) = a := by
              rw [Nat.sub_add_cancel hlen0]
              exact (List.prefix_iff_eq_take.mp hap).symm
            exact h2 (a.length - 1)
              (Nat.lt_of_le_of_lt (Nat.pred_le a.length) halen)
              (by rw [hkey]; exact haS)
      · have hnp : ¬ pat <+: (c :: rest) := fun hpp => hc ⟨hpat, hpp⟩
        simp only [replaceAllF, if_neg hc] at h
        rcases List.infix_cons_iff.mp h with hpre | hi
        · have hplen : 0 < pat.length := List.length_pos.mpr hpat
          have hpat0 : pat = pat[0] :: pat.drop 1 := by
            simpa using List.drop_eq_getElem_cons hplen
          obtain ⟨hp0, hpt⟩ := cons_prefix_parts hplen hpre
          have htail : pat.drop 1 <+: rest := by
            by_cases h11 : 1 < pat.length
            · exact drop_prefix_replaceAllF pat rep h3 h4 f rest 1 h11 hpt
            · have hnil : pat.drop 1 = [] := List.drop_eq_nil_of_le (by omega)
              rw [hnil]; exact List.nil_prefix
          exact hnp (by rw [hpat0]; exact List.cons_prefix_cons.mpr ⟨hp0, htail⟩)
        · exact ih rest (Nat.le_of_succ_le_succ hlen) hi

/-! ## The concrete tokens of the repair satisfy the boundary conditions -/

/-- The reserved token never occurs in a substituted diagnostics text:
the `__Sample`/`sample` pair satisfies all the boundary conditions of
`not_pat_infix_replaceAllF`, which are checked by computation. -/
lemma not_sampleTok_infix_repairOutput (s : Str) : ¬ sampleTok <:+: repairOutput s :=
  not_pat_infix_replaceAllF sampleTok displayTok (by decide) (by decide)
    (by decide) (by decide) (by decide) s.length s le_rfl

/-- The characters of the error marker do not occur in the reserved token. -/
lemma errTok_disjoint : ∀ c ∈ errTok, c ∉ sampleTok := by decide

/-- The engine error marker survives the reserved-name substitution. -/
lemma errTok_infix_repairOutput {s : Str} (h : errTok <:+: s) :
    errTok <:+: repairOutput s :=
  infix_replaceAllF_of_disjoint sampleTok displayTok errTok errTok_disjoint
    s.length s le_rfl h

/-! ## Concrete objects used by witnesses and counterexamples -/

/-- The identity codec: a concrete lossless compressor instance. -/
def idCodec : Codec := ⟨id, id, fun _ => rfl⟩

/-- The all-unassigned estimator state (a freshly constructed estimator). -/
def emptyState : CubistState := {}

/-- A hyperparameter assignment passing every validation check. -/
def pOk : FitParams := ⟨500, 1, .int 1, 0, 0⟩

/-- Does an error value carry a Python `ValueError`? -/
def isValueError : Option FitError → Bool
  | some (.valueError _) => true
  | _ => false

/-! ## Claims -/

/-- Claim C1 (amended): when the stored model text does not contain the
exact disabled-state substring `insts="0"`, a prediction call with a
positive neighbor count does **not** fail: the toggle's `str.replace` is a
no-op, and the engine is invoked with the stored model text unchanged, so
prediction proceeds without instance-based correction and no
`ModelStateError` is raised. -/
theorem C1_toggle_missing_substring_is_noop (codec : Codec)
    (mkData : Table → Str) (st : CubistState) (K : Int) (X : Table)
    (m : Str) (maxd : ℚ) (sw : Bool) (ns ds : Str)
    (hm : st.model_ = some m) (hmaxd : st.maxd_ = some maxd)
    (hsw : st.is_sample_weighted_ = some sw)
    (hns : st.names_string_ = some ns) (hds : st.data_string_ = some ds)
    (hmiss : ¬ disabledStr <:+: m) :
    (predict codec mkData st K X).2 =
      some ⟨mkData (if sw then setCol X cwpName (List.replicate (nRows X) none)
              else X),
        codec.decomp ns, codec.decomp ds, m⟩ := by
  simp only [predict, hm, hmaxd, hsw, hns, hds]
  have ht : toggleModel m K (pyIntTrunc maxd) = m := by
    unfold toggleModel
    split
    · exact replaceAll_eq_of_no_occurrence _ _ _ hmiss
    · rfl
  rw [ht]

/-- A fitted state whose model text lacks the disabled-state substring. -/
def stC1 : CubistState :=
  { model_ := some (("rules only").data), maxd_ := some 3,
    is_sample_weighted_ := some false,
    names_string_ := some [], data_string_ := some [] }

/-- Claim C1 counterexample: on a stored model text without `insts="0"`,
`predict` with neighbor count 1 succeeds (no `ModelStateError`) and hands
the engine the unchanged text — refuting the claim that prediction fails. -/
theorem C1_counterexample :
    ¬ disabledStr <:+: ("rules only").data ∧
    (predict idCodec (fun _ => []) stC1 1 []).2 =
      some ⟨[], [], [], ("rules only").data⟩ :=
  ⟨by decide, by decide⟩

/-- Claim C1 witness: the amended theorem applied at a concrete input. -/
theorem C1_witness :
    (stC1.model_ = some (("rules only").data) ∧
      ¬ disabledStr <:+: ("rules only").data) ∧
    (predict idCodec (fun _ => []) stC1 1 []).2 =
      some ⟨(fun (_ : Table) => ([] : Str))
          (if false then setCol [] cwpName (List.replicate (nRows []) none) else []),
        idCodec.decomp [], idCodec.decomp [], ("rules only").data⟩ :=
  ⟨⟨rfl, by decide⟩,
    C1_toggle_missing_substring_is_noop idCodec (fun _ => []) stC1 1 []
      (("rules only").data) 3 false [] [] rfl rfl rfl rfl rfl (by decide)⟩

/-- Claim C5 (confirmed): a prediction call never mutates the estimator
state; in particular the stored model text after `predict` is
byte-identical to its value before the call — the toggled text is a
derived value handed to the engine, not written back. -/
theorem C5_predict_preserves_state (codec : Codec) (mkData : Table → Str)
    (st : CubistState) (K : Int) (X : Table) :
    (predict codec mkData st K X).1 = st ∧
    (predict codec mkData st K X).1.model_ = st.model_ :=
  ⟨rfl, rfl⟩

/-- Claim C6 (confirmed): the correction toggle with neighbor count 0 is a
no-op; with `K > 0` on a text containing the disabled header it produces a
text containing the enabled header parameterized by `K` and the stored
`maxd`; and toggling the original stored text with 0 again leaves the
disabled form unchanged. -/
theorem C6_toggle_round_trip (t : Str) (K maxd : Int) (hK : 0 < K)
    (h : disabledStr <:+: t) :
    toggleModel t 0 maxd = t ∧
    enabledStr K maxd <:+: toggleModel t K maxd ∧
    toggleModel t 0 maxd = t := by
  refine ⟨by simp [toggleModel], ?_, by simp [toggleModel]⟩
  simp only [toggleModel, if_pos hK]
  exact rep_infix_replaceAllF disabledStr (enabledStr K maxd) (by decide)
    t.length t le_rfl h

/-- A stored model text in the canonical disabled form. -/
def tC6 : Str := ("m insts=\"0\" z").data

/-- Claim C6 witness: the toggle round-trip at a concrete disabled-form
text with neighbor count 3 and stored distance 7. -/
theorem C6_witness :
    ((0 : Int) < 3 ∧ disabledStr <:+: tC6) ∧
    (toggleModel tC6 0 7 = tC6 ∧
      enabledStr 3 7 <:+: toggleModel tC6 3 7 ∧
      toggleModel tC6 0 7 = tC6) :=
  ⟨⟨by decide, by decide⟩, C6_toggle_round_trip tC6 3 7 (by decide) (by decide)⟩

/-- Claim C2 (amended): when the names text contains the reserved token,
the substituted diagnostics text contains zero occurrences of the
reserved token, and the cleaned model text equals the prefix of the
substituted model text before the first occurrence of `sample`
concatenated with the suffix from the first occurrence of `entries` —
but the spliced model text itself may regain the reserved token across
the splice seam (see the counterexample). -/
theorem C2_repair_spec (o m : Str) (i j : Nat)
    (hi : subIndex displayTok (replaceAll sampleTok displayTok m) = some i)
    (hj : subIndex entriesTok (replaceAll sampleTok displayTok m) = some j) :
    ¬ sampleTok <:+: repairOutput o ∧
    repairModel m = .ok ((replaceAll sampleTok displayTok m).take i ++
      (replaceAll sampleTok displayTok m).drop j) := by
  refine ⟨not_sampleTok_infix_repairOutput o, ?_⟩
  simp only [repairModel, hi, hj]

/-- Claim C2 witness: the repair at a concrete model and diagnostics text. -/
theorem C2_witness :
    (subIndex displayTok
        (replaceAll sampleTok displayTok (("a __Sample b entries c").data)) =
      some 2 ∧
     subIndex entriesTok
        (replaceAll sampleTok displayTok (("a __Sample b entries c").data)) =
      some 11) ∧
    (¬ sampleTok <:+: repairOutput (("w __Sample Error").data) ∧
     repairModel (("a __Sample b entries c").data) = .ok
       ((replaceAll sampleTok displayTok (("a __Sample b entries c").data)).take 2 ++
        (replaceAll sampleTok displayTok (("a __Sample b entries c").data)).drop 11)) :=
  ⟨⟨by decide, by decide⟩,
    C2_repair_spec (("w __Sample Error").data) (("a __Sample b entries c").data)
      2 11 (by decide) (by decide)⟩

/-- The adversarial engine-model text of the C2 counterexample. -/
def mC2 : Str := ("X__Sampl__Sample entriesY").data

/-- A names text containing the reserved weight-column token. -/
def nsC2 : Str := ("outcome.\n__Sample: 0..1.").data

/-- Claim C2 counterexample: a fit call in which the names text contains the
reserved token completes without error, yet the stored model text — the
splice of the substituted text — contains an occurrence of the reserved
token `__Sample` recreated across the splice seam, refuting the claim
that the stored model text contains zero occurrences of it. -/
theorem C2_counterexample :
    (fit idCodec (fun _ => .ok ⟨some [], [], 0⟩) (fun _ => []) pOk false []
        nsC2 [] (fun _ _ => (mC2, ("ok").data)) emptyState).2 = none ∧
    (fit idCodec (fun _ => .ok ⟨some [], [], 0⟩) (fun _ => []) pOk false []
        nsC2 [] (fun _ _ => (mC2, ("ok").data)) emptyState).1.model_ =
      some (("X__SamplentriesY").data) ∧
    sampleTok <:+: (("X__SamplentriesY").data) :=
  ⟨by decide, by decide, by decide⟩

/-- The C4 claim's reading of the `used` set: variables referenced in a
rule condition, together with columns (beyond the three metadata columns)
whose coefficient is non-missing in **at least one** rule. -/
def usedVariablesClaim (ruleVars : List Str) (coeff : Table) : Finset Str :=
  ruleVars.toFinset ∪
    (((coeff.drop 3).filter (fun col => col.2.any Option.isSome)).map
      Prod.fst).toFinset

/-- Claim C4 (amended): assuming the three leading metadata columns of the
coefficient table are fully populated (as the source comments assert),
the stored `used` set is the union of the condition-referenced variables
and the columns whose coefficient is non-missing in **every** rule — not
in at least one rule as the claim states. -/
theorem C4_used_variables_all_rules (rv : List Str) (coeff : Table)
    (h3 : ∀ col ∈ coeff.take 3, col.2.all Option.isSome = true) :
    usedVariables rv coeff =
      rv.toFinset ∪
        (((coeff.drop 3).filter (fun col => col.2.all Option.isSome)).map
          Prod.fst).toFinset := by
  unfold usedVariables notNaCols
  congr 1
  conv_lhs => rw [← List.take_append_drop 3 coeff]
  rw [List.filter_append, List.filter_eq_self.mpr h3, List.map_append,
    List.drop_append_eq_append_drop]
  have hlen : ((coeff.take 3).map Prod.fst).length = min 3 coeff.length := by
    simp
  by_cases hc : 3 ≤ coeff.length
  · rw [List.drop_eq_nil_of_le (by omega), List.nil_append]
    have : 3 - ((coeff.take 3).map Prod.fst).length = 0 := by omega
    rw [this, List.drop_zero]
  · push_neg at hc
    have hdrop : coeff.drop 3 = [] := List.drop_eq_nil_of_le (by omega)
    simp [hdrop]

/-- A coefficient table whose fourth column is fully populated. -/
def coeffC4w : Table :=
  [(("committee").data, [some 1]), (("rule").data, [some 1]),
   (("(Intercept)").data, [some 0]), (("x1").data, [some 2])]

/-- Claim C4 witness: the amended equation at a concrete coefficient table. -/
theorem C4_witness :
    (∀ col ∈ coeffC4w.take 3, col.2.all Option.isSome = true) ∧
    usedVariables [] coeffC4w =
      ([] : List Str).toFinset ∪
        (((coeffC4w.drop 3).filter (fun col => col.2.all Option.isSome)).map
          Prod.fst).toFinset :=
  ⟨by decide, C4_used_variables_all_rules [] coeffC4w (by decide)⟩

/-- The coefficient table of the C4 counterexample: variable `x1` has a
coefficient in the first rule but a missing slot in the second. -/
def coeffC4 : Table :=
  [(("committee").data, [some 1, some 1]), (("rule").data, [some 1, some 2]),
   (("(Intercept)").data, [some 0, some 0]), (("x1").data, [some 1, none])]

/-- Claim C4 counterexample: after a successful fit whose parsed coefficient
table gives `x1` a non-missing coefficient in one rule and a missing one
in the other, the stored `used` set (which requires non-missing in every
rule) differs from the claim's `used` set (non-missing in at least one
rule): the fitted summary omits `x1`. -/
theorem C4_counterexample :
    (fit idCodec (fun _ => .ok ⟨some [], coeffC4, 0⟩) (fun _ => []) pOk false
        [("x1").data] [] [] (fun _ _ => ([], [])) emptyState).1.variables_ =
      some ⟨[("x1").data], usedVariables [] coeffC4⟩ ∧
    usedVariables [] coeffC4 ≠ usedVariablesClaim [] coeffC4 :=
  ⟨by decide, by decide⟩

/-- Claim C3 (amended): when the model-text parse fails, the training call
fails with a parse error and none of the parse-derived attributes
(`rules_`, `coeff_`, `maxd_`, `variables_`, `feature_importances_`,
`is_fitted_`) is touched — but the earlier-assigned attributes
(`names_string_`, `data_string_`, `model_`, …) have already been
overwritten, so the estimator is left with partial state, contrary to the
claim that all fitted attributes are unchanged. -/
theorem C3_parse_failure_partial_state (codec : Codec)
    (parse : Str → Except Unit ParseResult) (usage : Str → UsageTable)
    (p : FitParams) (sw : Bool) (xCols : List Str) (ns ds : Str)
    (engine : Str → Str → Str × Str) (st0 : CubistState)
    (h : (fit codec parse usage p sw xCols ns ds engine st0).2 = some .parseError) :
    (fit codec parse usage p sw xCols ns ds engine st0).1.rules_ = st0.rules_ ∧
    (fit codec parse usage p sw xCols ns ds engine st0).1.coeff_ = st0.coeff_ ∧
    (fit codec parse usage p sw xCols ns ds engine st0).1.maxd_ = st0.maxd_ ∧
    (fit codec parse usage p sw xCols ns ds engine st0).1.variables_ =
      st0.variables_ ∧
    (fit codec parse usage p sw xCols ns ds engine st0).1.feature_importances_ =
      st0.feature_importances_ ∧
    (fit codec parse usage p sw xCols ns ds engine st0).1.is_fitted_ =
      st0.is_fitted_ := by
  cases hv : validateParams p with
  | some msg => simp [fit, hv] at h
  | none =>
    by_cases hn : nlSampleTok <:+: ns
    · cases hr : repairModel (engine ns ds).1 with
      | error e => simp [fit, hv, hn, hr]
      | ok m2 =>
        by_cases he : errTok <:+: repairOutput (engine ns ds).2
        · simp [fit, fitAfterRepair, hv, hn, hr, he]
        · cases hp : parse m2 with
          | error u => simp [fit, fitAfterRepair, hv, hn, hr, he, hp]
          | ok pr =>
            exfalso
            cases hrv : pr.rules <;>
              simp [fit, fitAfterRepair, hv, hn, hr, he, hp, hrv] at h
    · by_cases he : errTok <:+: (engine ns ds).2
      · simp [fit, fitAfterRepair, hv, hn, he]
      · cases hp : parse (engine ns ds).1 with
        | error u => simp [fit, fitAfterRepair, hv, hn, he, hp]
        | ok pr =>
          exfalso
          cases hrv : pr.rules <;>
            simp [fit, fitAfterRepair, hv, hn, he, hp, hrv] at h

/-- Claim C3 witness: the amended theorem at a concrete failing parse. -/
theorem C3_witness :
    ((fit idCodec (fun _ => .error ()) (fun _ => []) pOk false [] [] []
        (fun _ _ => (("M").data, [])) emptyState).2 = some .parseError) ∧
    ((fit idCodec (fun _ => .error ()) (fun _ => []) pOk false [] [] []
        (fun _ _ => (("M").data, [])) emptyState).1.rules_ = emptyState.rules_ ∧
     (fit idCodec (fun _ => .error ()) (fun _ => []) pOk false [] [] []
        (fun _ _ => (("M").data, [])) emptyState).1.coeff_ = emptyState.coeff_ ∧
     (fit idCodec (fun _ => .error ()) (fun _ => []) pOk false [] [] []
        (fun _ _ => (("M").data, [])) emptyState).1.maxd_ = emptyState.maxd_ ∧
     (fit idCodec (fun _ => .error ()) (fun _ => []) pOk false [] [] []
        (fun _ _ => (("M").data, [])) emptyState).1.variables_ =
       emptyState.variables_ ∧
     (fit idCodec (fun _ => .error ()) (fun _ => []) pOk false [] [] []
        (fun _ _ => (("M").data, [])) emptyState).1.feature_importances_ =
       emptyState.feature_importances_ ∧
     (fit idCodec (fun _ => .error ()) (fun _ => []) pOk false [] [] []
        (fun _ _ => (("M").data, [])) emptyState).1.is_fitted_ =
       emptyState.is_fitted_) :=
  ⟨by decide,
    C3_parse_failure_partial_state idCodec (fun _ => .error ()) (fun _ => [])
      pOk false [] [] [] (fun _ _ => (("M").data, [])) emptyState (by decide)⟩

/-- Claim C3 counterexample: a fit call whose parse step fails leaves the
stored model text assigned (it differs from its pre-call value), refuting
the claim that no partial fitted state is stored. -/
theorem C3_counterexample :
    (fit idCodec (fun _ => .error ()) (fun _ => []) pOk false [] [] []
        (fun _ _ => (("M").data, [])) emptyState).2 = some .parseError ∧
    (fit idCodec (fun _ => .error ()) (fun _ => []) pOk false [] [] []
        (fun _ _ => (("M").data, [])) emptyState).1.model_ ≠
      emptyState.model_ :=
  ⟨by decide, by decide⟩

/-- On a successful fit, the persisted texts are stored compressed and
every attribute that `predict` consults is assigned. -/
lemma fit_ok_fields (codec : Codec) (parse : Str → Except Unit ParseResult)
    (usage : Str → UsageTable) (p : FitParams) (sw : Bool) (xCols : List Str)
    (ns ds : Str) (engine : Str → Str → Str × Str) (st0 : CubistState)
    (h : (fit codec parse usage p sw xCols ns ds engine st0).2 = none) :
    (fit codec parse usage p sw xCols ns ds engine st0).1.names_string_ =
      some (codec.comp ns) ∧
    (fit codec parse usage p sw xCols ns ds engine st0).1.data_string_ =
      some (codec.comp ds) ∧
    (∃ m, (fit codec parse usage p sw xCols ns ds engine st0).1.model_ = some m) ∧
    (∃ q, (fit codec parse usage p sw xCols ns ds engine st0).1.maxd_ = some q) ∧
    (fit codec parse usage p sw xCols ns ds engine st0).1.is_sample_weighted_ =
      some sw := by
  cases hv : validateParams p with
  | some msg => simp [fit, hv] at h
  | none =>
    by_cases hn : nlSampleTok <:+: ns
    · cases hr : repairModel (engine ns ds).1 with
      | error e => simp [fit, hv, hn, hr] at h
      | ok m2 =>
        by_cases he : errTok <:+: repairOutput (engine ns ds).2
        · simp [fit, fitAfterRepair, hv, hn, hr, he] at h
        · cases hp : parse m2 with
          | error u => simp [fit, fitAfterRepair, hv, hn, hr, he, hp] at h
          | ok pr =>
            cases hrv : pr.rules <;>
              simp [fit, fitAfterRepair, hv, hn, hr, he, hp, hrv]
    · by_cases he : errTok <:+: (engine ns ds).2
      · simp [fit, fitAfterRepair, hv, hn, he] at h
      · cases hp : parse (engine ns ds).1 with
        | error u => simp [fit, fitAfterRepair, hv, hn, he, hp] at h
        | ok pr =>
          cases hrv : pr.rules <;>
            simp [fit, fitAfterRepair, hv, hn, he, hp, hrv]

/-- Claim C7 (confirmed): after a successful fit, the schema text and
training data text that `predict` hands the engine are byte-identical to
the texts produced at training time — the stored state holds
`codec.comp` of each text and `predict` applies `codec.decomp`, so the
lossless round-trip makes the compression transparent. -/
theorem C7_compression_round_trip (codec : Codec)
    (parse : Str → Except Unit ParseResult) (usage : Str → UsageTable)
    (p : FitParams) (sw : Bool) (xCols : List Str) (ns ds : Str)
    (engine : Str → Str → Str × Str) (st0 : CubistState)
    (mkData : Table → Str) (K : Int) (X : Table)
    (h : (fit codec parse usage p sw xCols ns ds engine st0).2 = none) :
    ∃ args, (predict codec mkData
        (fit codec parse usage p sw xCols ns ds engine st0).1 K X).2 =
      some args ∧ args.namesArg = ns ∧ args.dataArg = ds := by
  obtain ⟨h1, h2, ⟨m, hm⟩, ⟨q, hq⟩, h5⟩ :=
    fit_ok_fields codec parse usage p sw xCols ns ds engine st0 h
  refine ⟨⟨mkData (if sw then setCol X cwpName (List.replicate (nRows X) none)
        else X),
      codec.decomp (codec.comp ns), codec.decomp (codec.comp ds),
      toggleModel m K (pyIntTrunc q)⟩,
    ?_, codec.lossless ns, codec.lossless ds⟩
  simp only [predict, hm, hq, h5, h1, h2]

/-- Claim C7 witness: the round-trip at a concrete successful fit. -/
theorem C7_witness :
    ((fit idCodec (fun _ => .ok ⟨some [], [], 0⟩) (fun _ => []) pOk false []
        (("n").data) (("d").data) (fun _ _ => (("M").data, []))
        emptyState).2 = none) ∧
    (∃ args, (predict idCodec (fun _ => [])
        (fit idCodec (fun _ => .ok ⟨some [], [], 0⟩) (fun _ => []) pOk false []
          (("n").data) (("d").data) (fun _ _ => (("M").data, []))
          emptyState).1 1 []).2 =
      some args ∧ args.namesArg = ("n").data ∧ args.dataArg = ("d").data) :=
  ⟨by decide,
    C7_compression_round_trip idCodec (fun _ => .ok ⟨some [], [], 0⟩)
      (fun _ => []) pOk false [] (("n").data) (("d").data)
      (fun _ _ => (("M").data, [])) emptyState (fun _ => []) 1 [] (by decide)⟩

/-- Claim C8 (amended): when the engine diagnostics text contains the error
marker, the training call always fails; the raised engine error carries
the diagnostics text verbatim when the names text does not contain the
reserved weight-column token — otherwise the surfaced text is the
substituted diagnostics, not the raw text (see the counterexample). -/
theorem C8_engine_error_raises (codec : Codec)
    (parse : Str → Except Unit ParseResult) (usage : Str → UsageTable)
    (p : FitParams) (sw : Bool) (xCols : List Str) (ns ds mraw oraw : Str)
    (st0 : CubistState) (h : errTok <:+: oraw) :
    (fit codec parse usage p sw xCols ns ds (fun _ _ => (mraw, oraw)) st0).2 ≠
      none ∧
    (validateParams p = none → ¬ nlSampleTok <:+: ns →
      (fit codec parse usage p sw xCols ns ds (fun _ _ => (mraw, oraw)) st0).2 =
        some (.engineError oraw)) := by
  constructor
  · cases hv : validateParams p with
    | some msg => simp [fit, hv]
    | none =>
      by_cases hn : nlSampleTok <:+: ns
      · cases hr : repairModel mraw with
        | error e => simp [fit, hv, hn, hr]
        | ok m2 =>
          have he : errTok <:+: repairOutput oraw := errTok_infix_repairOutput h
          simp [fit, fitAfterRepair, hv, hn, hr, he]
      · simp [fit, fitAfterRepair, hv, hn, h]
  · intro hv hn
    simp [fit, fitAfterRepair, hv, hn, h]

/-- Claim C8 counterexample: with the reserved token in the names text and a
diagnostics text containing both the token and the error marker, the
training call fails with an engine error whose payload is the
*substituted* diagnostics text, which differs from the raw engine
diagnostics — refuting "surfaced verbatim". -/
theorem C8_counterexample :
    errTok <:+: (("x__Sample Error").data) ∧
    (fit idCodec (fun _ => .ok ⟨some [], [], 0⟩) (fun _ => []) pOk false []
        nsC2 []
        (fun _ _ => (("a__Sampleb entries c").data, ("x__Sample Error").data))
        emptyState).2 = some (.engineError (("xsample Error").data)) ∧
    ("xsample Error").data ≠ ("x__Sample Error").data :=
  ⟨by decide, by decide, by decide⟩

/-- Claim C8 witness: the amended theorem at a concrete erroring engine. -/
theorem C8_witness :
    errTok <:+: (("boom Error").data) ∧
    ((fit idCodec (fun _ => .error ()) (fun _ => []) pOk false [] [] []
        (fun _ _ => ([], ("boom Error").data)) emptyState).2 ≠ none ∧
     (validateParams pOk = none → ¬ nlSampleTok <:+: ([] : Str) →
       (fit idCodec (fun _ => .error ()) (fun _ => []) pOk false [] [] []
          (fun _ _ => ([], ("boom Error").data)) emptyState).2 =
         some (.engineError (("boom Error").data)))) :=
  ⟨by decide,
    C8_engine_error_raises idCodec (fun _ => .error ()) (fun _ => []) pOk
      false [] [] [] [] (("boom Error").data) emptyState (by decide)⟩

/-- Claim C9 (confirmed): `fit` validates its hyperparameters first: under
any out-of-range parameter (or a non-integer neighbor count) it fails
with a `ValueError`, leaves the estimator state untouched, and its result
does not depend on the encoded texts or on the engine — no encoding or
engine call influences the outcome. -/
theorem C9_validation (codec : Codec) (parse : Str → Except Unit ParseResult)
    (usage : Str → UsageTable) (p : FitParams) (sw : Bool) (xCols : List Str)
    (ns ns2 ds ds2 : Str) (engine engine2 : Str → Str → Str × Str)
    (st0 : CubistState)
    (h : p.n_rules < 1 ∨ 1000000 < p.n_rules ∨
      p.n_committees < 1 ∨ 100 < p.n_committees ∨
      (∀ n, p.neighbors ≠ PyNum.int n) ∨
      (∃ n, p.neighbors = PyNum.int n ∧ (n < 1 ∨ 9 < n)) ∨
      p.extrapolation < 0 ∨ 1 < p.extrapolation ∨
      p.sample < 0 ∨ 1 < p.sample) :
    (fit codec parse usage p sw xCols ns ds engine st0).1 = st0 ∧
    isValueError (fit codec parse usage p sw xCols ns ds engine st0).2 = true ∧
    fit codec parse usage p sw xCols ns ds engine st0 =
      fit codec parse usage p sw xCols ns2 ds2 engine2 st0 := by
  have hv : validateParams p ≠ none := by
    intro hnone
    obtain ⟨nr, nc, nb, ex, sa⟩ := p
    cases nb with
    | float q =>
      simp only [validateParams] at hnone
      split_ifs at hnone
    | int n =>
      simp only [validateParams] at hnone
      split_ifs at hnone with h1 h2 h3 h4 h5
      rcases h with h | h | h | h | h | h | h | h | h | h
      · exact h1 (Or.inl h)
      · exact h1 (Or.inr h)
      · exact h2 (Or.inl h)
      · exact h2 (Or.inr h)
      · exact (h n) rfl
      · obtain ⟨n2, hn2, hr⟩ := h
        cases hn2
        exact h3 hr
      · exact h4 (Or.inl h)
      · exact h4 (Or.inr h)
      · exact h5 (Or.inl h)
      · exact h5 (Or.inr h)
  obtain ⟨msg, hmsg⟩ := Option.ne_none_iff_exists'.mp hv
  exact ⟨by simp [fit, hmsg], by simp [fit, hmsg, isValueError],
    by simp [fit, hmsg]⟩

/-- A hyperparameter assignment with an out-of-range rule limit. -/
def pBad : FitParams := ⟨0, 1, .int 1, 0, 0⟩

/-- Claim C9 witness: validation failure at a concrete parameter set. -/
theorem C9_witness :
    (pBad.n_rules < 1 ∨ 1000000 < pBad.n_rules ∨
      pBad.n_committees < 1 ∨ 100 < pBad.n_committees ∨
      (∀ n, pBad.neighbors ≠ PyNum.int n) ∨
      (∃ n, pBad.neighbors = PyNum.int n ∧ (n < 1 ∨ 9 < n)) ∨
      pBad.extrapolation < 0 ∨ 1 < pBad.extrapolation ∨
      pBad.sample < 0 ∨ 1 < pBad.sample) ∧
    ((fit idCodec (fun _ => .error ()) (fun _ => []) pBad false [] [] []
        (fun _ _ => ([], [])) emptyState).1 = emptyState ∧
     isValueError (fit idCodec (fun _ => .error ()) (fun _ => []) pBad false
        [] [] [] (fun _ _ => ([], [])) emptyState).2 = true ∧
     fit idCodec (fun _ => .error ()) (fun _ => []) pBad false [] [] []
        (fun _ _ => ([], [])) emptyState =
       fit idCodec (fun _ => .error ()) (fun _ => []) pBad false []
        (("other").data) (("other").data)
        (fun _ _ => (("x").data, ("y").data)) emptyState) :=
  ⟨Or.inl (by decide),
    C9_validation idCodec (fun _ => .error ()) (fun _ => []) pBad false []
      [] (("other").data) [] (("other").data) (fun _ _ => ([], []))
      (fun _ _ => (("x").data, ("y").data)) emptyState (Or.inl (by decide))⟩

/-- Claim C10 (confirmed): for a model fitted with sample weights, `predict`
appends one trailing all-missing column named `case_weight_pred` to the
prediction frame before encoding it (assuming, as the upstream validation
guarantees, that no input column already bears that name); for unweighted
models the frame is passed unchanged. -/
theorem C10_weight_column (codec : Codec) (mkData : Table → Str)
    (st : CubistState) (K : Int) (X : Table) (m : Str) (maxd : ℚ) (sw : Bool)
    (ns ds : Str)
    (hm : st.model_ = some m) (hmaxd : st.maxd_ = some maxd)
    (hsw : st.is_sample_weighted_ = some sw)
    (hns : st.names_string_ = some ns) (hds : st.data_string_ = some ds)
    (hname : ∀ col ∈ X, col.1 ≠ cwpName) :
    (predict codec mkData st K X).2 =
      some ⟨mkData (if sw then X ++ [(cwpName, List.replicate (nRows X) none)]
              else X),
        codec.decomp ns, codec.decomp ds, toggleModel m K (pyIntTrunc maxd)⟩ := by
  have hset : setCol X cwpName (List.replicate (nRows X) none) =
      X ++ [(cwpName, List.replicate (nRows X) none)] := by
    unfold setCol
    rw [if_neg]
    simp only [List.any_eq_true, decide_eq_true_eq, not_exists]
    exact fun col hc => hname col hc.1 hc.2
  simp only [predict, hm, hmaxd, hsw, hns, hds, hset]

/-- A weighted fitted state for the C10 witness. -/
def stC10 : CubistState :=
  { model_ := some [], maxd_ := some 0, is_sample_weighted_ := some true,
    names_string_ := some [], data_string_ := some [] }

/-- The concrete one-column prediction frame of the C10 witness. -/
def xC10 : Table := [((("a").data : Str), [some (1 : ℚ)])]

/-- Claim C10 witness: the weight column is appended at a concrete weighted
prediction call. -/
theorem C10_witness :
    (∀ col ∈ xC10, col.1 ≠ cwpName) ∧
    (predict idCodec (fun _ => []) stC10 1 xC10).2 =
      some ⟨(fun (_ : Table) => ([] : Str))
          (if true then xC10 ++ [(cwpName, List.replicate (nRows xC10) none)]
           else xC10),
        idCodec.decomp [], idCodec.decomp [],
        toggleModel [] 1 (pyIntTrunc 0)⟩ :=
  ⟨by decide,
    C10_weight_column idCodec (fun _ => []) stC10 1 xC10 [] 0 true [] []
      rfl rfl rfl rfl rfl (by decide)⟩

end Cubist
